import Mathlib

/-!
Shallow embedding of the changelog parser/serializer of `changelog.py`
(mist.io repository).  The script is Python 2; strings are byte strings,
so `str.strip`/`\s` use the six ASCII whitespace characters,
`str.splitlines` breaks lines at LF, CR and CRLF only, and `str.lower`
(resp. `upper`) only maps the ASCII letter ranges.  Strings are modelled
as `List Char`, Python `int` as `Int` (`Nat` where the value comes from a
digit group).  A failing `assert` (the spec's FormatError), an out of
range subscript (IndexError) and the use of an unbound local (NameError)
are modelled by the `PyError` type; every parsing entry point returns
`Except PyError`.
-/

set_option maxHeartbeats 1000000

/-- The six whitespace characters of Python 2 byte strings: this is both
the set stripped by `str.strip()` and the set matched by `\s` in a
byte-string regex. -/
def pySpace (c : Char) : Bool :=
  c = ' ' || c = '\t' || c = '\n' || c = '\x0b' || c = '\x0c' || c = '\r'

/-- Python 2 `str.lower` on a byte: only A-Z is mapped. -/
def pyLower (c : Char) : Char :=
  if 'A' ≤ c ∧ c ≤ 'Z' then Char.ofNat (c.toNat + 32) else c

/-- Python 2 `str.upper` on a byte: only a-z is mapped. -/
def pyUpper (c : Char) : Char :=
  if 'a' ≤ c ∧ c ≤ 'z' then Char.ofNat (c.toNat - 32) else c

/-- Python 2 `str.capitalize`: first byte uppercased, the rest lowercased. -/
def pyCapitalize : List Char → List Char
  | [] => []
  | c :: r => pyUpper c :: r.map pyLower

/-- Python 2 `str.strip()`: remove leading and trailing whitespace. -/
def pyStrip (l : List Char) : List Char :=
  (l.dropWhile pySpace).rdropWhile pySpace

/-- Worker for `splitlines`: Python 2 `str.splitlines()` breaks at
`\n`, `\r` and at the pair `\r\n`; the accumulator holds the current
(reversed) line.  A trailing line terminator does not produce a final
empty line. -/
def splitlinesAux : List Char → List Char → List (List Char)
  | [], acc => if acc.isEmpty then [] else [acc.reverse]
  | '\r' :: '\n' :: rest, acc => acc.reverse :: splitlinesAux rest []
  | c :: rest, acc =>
    if c = '\n' || c = '\r' then acc.reverse :: splitlinesAux rest []
    else splitlinesAux rest (c :: acc)

/-- Python 2 `str.splitlines()`. -/
def splitlines (s : List Char) : List (List Char) := splitlinesAux s []

/-- First loop of `crop_line_padding`: `for i, line in enumerate(lines): if
line: lines = lines[i:]; break`.  When every line is falsy (empty) the
loop never breaks and the list is returned unchanged — the loop only
drops the leading empty lines when some line is non-empty. -/
def dropLeadingBlank (ls : List (List Char)) : List (List Char) :=
  if ls.any (fun l => !l.isEmpty) then ls.dropWhile (fun l => l.isEmpty) else ls

/-- Second loop of `crop_line_padding`: `for i, line in
enumerate(reversed(lines)): if line: lines = lines[:-i or len(lines)];
break`.  Symmetric to `dropLeadingBlank`: trailing empty lines are dropped
only when some line is non-empty. -/
def dropTrailingBlank (ls : List (List Char)) : List (List Char) :=
  if ls.any (fun l => !l.isEmpty) then ls.rdropWhile (fun l => l.isEmpty) else ls

/-- `crop_line_padding` applied to an already-split list of lines:
`lines = [line.strip() for line in lines]` followed by the two loops. -/
def cropLines (ls : List (List Char)) : List (List Char) :=
  dropTrailingBlank (dropLeadingBlank (ls.map pyStrip))

/-- `crop_line_padding` applied to a string: `lines = lines.splitlines()`
first, then the list version. -/
def crop_line_padding (s : List Char) : List (List Char) :=
  cropLines (splitlines s)

/-- Python `int()` on a non-empty string of decimal digits. -/
def digitsToNat (ds : List Char) : Nat :=
  ds.foldl (fun n c => n * 10 + (c.toNat - 48)) 0

/-- Decimal digits of a natural number, most significant first, with a
fuel argument making the division recursion structural (any fuel above
the number of digits gives the same answer). -/
def natDigitsGo : Nat → Nat → List Char → List Char
  | 0, _, acc => acc
  | fuel + 1, n, acc =>
    if n < 10 then Char.ofNat (48 + n) :: acc
    else natDigitsGo fuel (n / 10) (Char.ofNat (48 + n % 10) :: acc)

/-- Decimal digits of a natural number, most significant first
(the body of Python `str()` of a non-negative int). -/
def natDigits (n : Nat) : List Char := natDigitsGo (n + 1) n []

/-- Python `str()` (the `%s` / `%d` format) of an int. -/
def intToChars (i : Int) : List Char :=
  if i < 0 then '-' :: natDigits i.natAbs else natDigits i.toNat

/-- Consume an expected literal from the front of a list, returning the
remainder. -/
def dropLit : List Char → List Char → Option (List Char)
  | [], r => some r
  | c :: cs, d :: ds => if d = c then dropLit cs ds else none
  | _ :: _, [] => none

/-- Errors a parse call can raise: `formatError` models a failing
`assert` (the spec's FormatError), `indexError` an out-of-range
subscript, `nameError` the use of an unbound local variable. -/
inductive PyError where
  | formatError (msg : String)
  | indexError
  | nameError (n : String)
  deriving DecidableEq, Repr

/-- The fixed `MONTHS` tuple of the script. -/
def MONTHSL : List (List Char) :=
  ["Jan".toList, "Feb".toList, "Mar".toList, "Apr".toList, "May".toList,
   "Jun".toList, "Jul".toList, "Aug".toList, "Sep".toList, "Oct".toList,
   "Nov".toList, "Dec".toList]

/-- The fixed `Change.KINDS` tuple of the script. -/
def KINDSL : List (List Char) :=
  ["Changes".toList, "Bugfix".toList, "Feature".toList, "Optimization".toList]

/-- In-memory `Change` object: one line item of a version. -/
structure Change where
  title : List Char
  kind : List Char
  mr : Int
  deriving DecidableEq, Repr

/-- In-memory `Version` object: one release entry. -/
structure Version where
  name : List Char
  prerelease : Bool
  day : Int
  month : List Char
  year : Int
  notes : List Char
  changes : List Change
  deriving DecidableEq, Repr

/-- In-memory `Changelog` object: the whole document. -/
structure Changelog where
  versions : List Version
  deriving DecidableEq, Repr

/-- Embedding of `re.match('^#\s*changelog\s*$', line.lower())` from
`Changelog.from_string` (the line is lowercased by the caller, so the
whole comparison is case-insensitive). -/
def matchTopHeader (l : List Char) : Bool :=
  match l.map pyLower with
  | '#' :: r =>
    match dropLit "changelog".toList (r.dropWhile pySpace) with
    | some rest => (rest.dropWhile pySpace).isEmpty
    | none => false
  | _ => false

/-- Embedding of `re.match('^##[^#]', line)`: at least three characters,
two leading hashes, and a third character that is not a hash. -/
def isLevelTwoHeader : List Char → Bool
  | '#' :: '#' :: c :: _ => decide (c ≠ '#')
  | _ => false

/-- Embedding of `re.match(r'^###\s*changes\s*$', line, re.IGNORECASE)`,
the marker of the "Changes" subsection inside a version block. -/
def matchChangesMarker (l : List Char) : Bool :=
  match l.map pyLower with
  | '#' :: '#' :: '#' :: r =>
    match dropLit "changes".toList (r.dropWhile pySpace) with
    | some rest => (rest.dropWhile pySpace).isEmpty
    | none => false
  | _ => false

/-- Tail of the version-name regex `^v\d+\.\d+\.\d+(-.+)?$` of
`Version.__init__` after the three digit groups: either nothing is left
(`$` also matches just before one trailing newline), or a greedy
`(-.+)?` group, whose `.` matches anything but a newline, followed by
`$`.  Returns the truth of `bool(match.groups()[0])`, i.e. whether the
suffix group matched. -/
def nameTail (r : List Char) : Option Bool :=
  match r with
  | [] => some false
  | c :: u =>
    if c = '\n' ∧ u = [] then some false
    else if c = '-' then
      let w := if u.getLast? = some '\n' then u.dropLast else u
      if w ≠ [] ∧ w.all (fun c => c ≠ '\n') then some true else none
    else none

/-- Embedding of the anchored regex `^v\d+\.\d+\.\d+(-.+)?$` of
`Version.__init__` (no IGNORECASE: the leading `v` must be lowercase).
Returns `some b` on a match, where `b` says whether the prerelease
suffix group matched. -/
def parseName (s : List Char) : Option Bool :=
  match s with
  | c0 :: r0 =>
    if c0 = 'v' then
      let d1 := r0.takeWhile Char.isDigit
      let r1 := r0.dropWhile Char.isDigit
      if d1.isEmpty then none else
      match r1 with
      | c :: r2 =>
        if c = '.' then
          let d2 := r2.takeWhile Char.isDigit
          let r3 := r2.dropWhile Char.isDigit
          if d2.isEmpty then none else
          match r3 with
          | c' :: r4 =>
            if c' = '.' then
              let d3 := r4.takeWhile Char.isDigit
              let r5 := r4.dropWhile Char.isDigit
              if d3.isEmpty then none else nameTail r5
            else none
          | [] => none
        else none
      | [] => none
    else none
  | [] => none

/-- `Version.__init__`: validates the name against
`^v\d+\.\d+\.\d+(-.+)?$` (deriving `prerelease` from the suffix group),
the day against `0 < day < 32`, the capitalized month against `MONTHS`
and the year against `2017 <= year < 2030`, each with an `assert`
(Python interpolates the offending value into the message).  `changes`
starts out empty. -/
def Version.mk' (name : List Char) (day : Int) (month : List Char)
    (year : Int) (notes : List Char) : Except PyError Version :=
  match parseName name with
  | none => .error (.formatError "Invalid version name")
  | some pre =>
    if 0 < day ∧ day < 32 then
      let m := pyCapitalize month
      if MONTHSL.contains m then
        if 2017 ≤ year ∧ year < 2030 then
          .ok ⟨name, pre, day, m, year, notes, []⟩
        else .error (.formatError "year")
      else .error (.formatError "month")
    else .error (.formatError "Invalid day")

/-- `Change.__init__`: `assert title` (non-empty), `assert kind in
KINDS`; the `assert not mr or isinstance(mr, int)` only checks the type
of a truthy `mr`, which always holds for an `Int`, so any integer —
negative ones included — is accepted. -/
def Change.mk' (title : List Char) (kind : List Char) (mr : Int) :
    Except PyError Change :=
  if title.isEmpty then .error (.formatError "")
  else if KINDSL.contains kind then .ok ⟨title, kind, mr⟩
  else .error (.formatError "Invalid change type")

/-- Tail of the change-line regex after the title: embedding of
`\s*(?:\(!([0-9]+)\))?\s*$` with the regex engine's backtracking
resolved.  Both `\s*` are greedy and deterministic here: no whitespace
character can start the `(!`, and after a failed optional group the
anchor `$` cannot match at a non-space.  Returns the digits of the
captured MR group, if any. -/
def matchOptRef (r : List Char) : Option (Option (List Char)) :=
  match r.dropWhile pySpace with
  | [] => some none
  | '(' :: '!' :: rest =>
    let ds := rest.takeWhile Char.isDigit
    match rest.dropWhile Char.isDigit with
    | ')' :: tail =>
      if ds.isEmpty then none
      else if (tail.dropWhile pySpace).isEmpty then some (some ds) else none
    | _ => none
  | _ => none

/-- Lazy `(.*?)` of the change-line regex: try the shortest title first
(the empty one), growing it one character at a time; `.` never matches a
newline.  Returns the captured title and optional MR digits. -/
def matchTitleTail : List Char → Option (List Char × Option (List Char))
  | [] =>
    match matchOptRef [] with
    | some mr => some ([], mr)
    | none => none
  | c :: rest =>
    match matchOptRef (c :: rest) with
    | some mr => some ([], mr)
    | none =>
      if c = '\n' then none
      else
        match matchTitleTail rest with
        | some (title, mr) => some (c :: title, mr)
        | none => none

/-- Try the four kind keywords as case-insensitive alternatives at the
front of the input, returning the matched text as it appears together
with the remainder.  The keywords start with distinct letters, so the
regex alternation is deterministic. -/
def matchKindGo : List (List Char) → List Char → Option (List Char × List Char)
  | [], _ => none
  | k :: ks, r =>
    if (r.take k.length).map pyLower = k.map pyLower
    then some (r.take k.length, r.drop k.length)
    else matchKindGo ks r

/-- `Change.from_string`: embedding of the anchored regex
`^\s*[\*-]?\s*(Changes|Bugfix|Feature|Optimization)\s*:\s*(.*?)\s*(?:\(!([0-9]+)\))?\s*$`
(IGNORECASE) followed by the `Change` constructor on
`(title, kind.capitalize(), int(mr or 0))`.  The optional bullet is
taken when present (no keyword starts with `*` or `-`, so this is
deterministic). -/
def Change.from_string (s : List Char) : Except PyError Change :=
  let r0 := s.dropWhile pySpace
  let r1 := match r0 with
    | c :: rest => if c = '*' ∨ c = '-' then rest else r0
    | [] => r0
  match matchKindGo KINDSL (r1.dropWhile pySpace) with
  | none => .error (.formatError "Couldn't parse change information from string.")
  | some (kindChars, r3) =>
    match r3.dropWhile pySpace with
    | c :: r5 =>
      if c = ':' then
        match matchTitleTail (r5.dropWhile pySpace) with
        | some (title, mr) =>
          Change.mk' title (pyCapitalize kindChars)
            (Int.ofNat (match mr with | none => 0 | some ds => digitsToNat ds))
        | none => .error (.formatError "Couldn't parse change information from string.")
      else .error (.formatError "Couldn't parse change information from string.")
    | [] => .error (.formatError "Couldn't parse change information from string.")

/-- `Change.to_string`: `"* <kind>: <title>"` with `" (!<mr>)"` appended
iff `mr` is truthy (non-zero). -/
def Change.to_string (c : Change) : List Char :=
  let msg := "* ".toList ++ c.kind ++ ": ".toList ++ c.title
  if c.mr = 0 then msg
  else msg ++ " (!".toList ++ intToChars c.mr ++ [')']

/-- Case-insensitive month alternative `(Jan|Feb|...|Dec)` of the version
header regex: all alternatives are three letters and pairwise distinct,
so at most one matches.  Returns the matched text as it appears and the
remainder. -/
def matchMonth (r : List Char) : Option (List Char × List Char) :=
  match r with
  | a :: b :: c :: rest =>
    if MONTHSL.any (fun m => m.map pyLower = [pyLower a, pyLower b, pyLower c])
    then some ([a, b, c], rest)
    else none
  | _ => none

/-- Date part `\(\s*(\d+)\s*(Jan|...|Dec)\s*(\d+)\s*\)\s*$` of the
version header regex, preceded by the `\s*` that separates it from the
name group.  Deterministic: each greedy `\d+`/`\s*` is followed by a
character it cannot match.  Returns day digits, month text and year
digits. -/
def matchDateTail (r : List Char) : Option (List Char × List Char × List Char) :=
  match r.dropWhile pySpace with
  | '(' :: r1 =>
    let dayDs := (r1.dropWhile pySpace).takeWhile Char.isDigit
    let r2 := (r1.dropWhile pySpace).dropWhile Char.isDigit
    if dayDs.isEmpty then none
    else
      match matchMonth (r2.dropWhile pySpace) with
      | none => none
      | some (mon, r3) =>
        let yearDs := (r3.dropWhile pySpace).takeWhile Char.isDigit
        match ((r3.dropWhile pySpace).dropWhile Char.isDigit).dropWhile pySpace with
        | ')' :: tail =>
          if yearDs.isEmpty then none
          else if (tail.dropWhile pySpace).isEmpty then some (dayDs, mon, yearDs)
          else none
        | _ => none
  | _ => none

/-- Backtracking of the greedy `(?:-.+)?` group of the version header
regex: try the longest suffix candidate `t.take k` first (it may not
contain a newline), requiring the remainder to match the date tail.
Returns the characters taken into the name group and the date groups. -/
def tryDashSplits (t : List Char) : Nat → Option (List Char × (List Char × List Char × List Char))
  | 0 => none
  | k + 1 =>
    let a := t.take (k + 1)
    if a.all (fun c => c ≠ '\n') then
      match matchDateTail (t.drop (k + 1)) with
      | some g => some ('-' :: a, g)
      | none => tryDashSplits t k
    else tryDashSplits t k

/-- Embedding of the version header regex
`^##\s*(v\d+\.\d+\.\d+(?:-.+)?)\s*\(\s*(\d+)\s*(Jan|...|Dec)\s*(\d+)\s*\)\s*$`
(IGNORECASE) of `Version.from_string`.  The name group is greedy: when a
dash is present the longest suffix whose remainder still matches the
date tail wins — `\s*\(` puts no character between the group and the
opening parenthesis, so the group happily swallows the separating
space.  Returns the captured name exactly as it appears, the day, the
month text and the year. -/
def matchVersionHeader (l : List Char) : Option (List Char × Nat × List Char × Nat) :=
  match l with
  | '#' :: '#' :: r0 =>
    match r0.dropWhile pySpace with
    | c :: r2 =>
      if c = 'v' ∨ c = 'V' then
        let d1 := r2.takeWhile Char.isDigit
        let r3 := r2.dropWhile Char.isDigit
        if d1.isEmpty then none else
        match r3 with
        | '.' :: r4 =>
          let d2 := r4.takeWhile Char.isDigit
          let r5 := r4.dropWhile Char.isDigit
          if d2.isEmpty then none else
          match r5 with
          | '.' :: r6 =>
            let d3 := r6.takeWhile Char.isDigit
            let r7 := r6.dropWhile Char.isDigit
            if d3.isEmpty then none else
            let base := c :: d1 ++ '.' :: d2 ++ '.' :: d3
            match r7 with
            | '-' :: t =>
              match tryDashSplits t t.length with
              | some (suf, (dayDs, mon, yearDs)) =>
                some (base ++ suf, digitsToNat dayDs, mon, digitsToNat yearDs)
              | none =>
                match matchDateTail r7 with
                | some (dayDs, mon, yearDs) =>
                  some (base, digitsToNat dayDs, mon, digitsToNat yearDs)
                | none => none
            | _ =>
              match matchDateTail r7 with
              | some (dayDs, mon, yearDs) =>
                some (base, digitsToNat dayDs, mon, digitsToNat yearDs)
              | none => none
          | _ => none
        | _ => none
      else none
    | [] => none
  | _ => none

/-- `'\n'.join(lines)`. -/
def joinLines : List (List Char) → List Char
  | [] => []
  | [l] => l
  | l :: rest => l ++ '\n' :: joinLines rest

/-- Index of the first line matching the `### changes` marker: the notes
loop of `Version.from_string` appends lines to `notes` until it breaks
at this index. -/
def findMarker (ls : List (List Char)) : Option Nat :=
  ls.findIdx? matchChangesMarker

/-- The per-line change parsing loop of `Version.from_string`: each line
is parsed with `Change.from_string` and appended; a failure aborts the
whole parse. -/
def parseChanges : List (List Char) → Except PyError (List Change)
  | [] => .ok []
  | l :: rest =>
    match Change.from_string l with
    | .error e => .error e
    | .ok c =>
      match parseChanges rest with
      | .error e => .error e
      | .ok cs => .ok (c :: cs)

/-- `Version.from_string`.  `lines[0]` on an empty cropped input raises
IndexError.  After the header line is matched, the body is cropped
again; the notes loop collects every line up to the first `### changes`
marker (every line when there is none).  When the body is empty the loop
never runs, leaving the loop variable `i` unbound, and the subsequent
`lines[i+1:]` raises a NameError.  The remaining lines are cropped,
empty ones are removed by `filter(None, ...)`, and each is parsed as a
`Change` after the `Version` constructor has validated the header
groups. -/
def Version.from_string (s : List Char) : Except PyError Version :=
  match crop_line_padding s with
  | [] => .error .indexError
  | l0 :: rest =>
    match matchVersionHeader l0 with
    | none => .error (.formatError "Invalid version header")
    | some (name, day, mon, year) =>
      let body := cropLines rest
      match body with
      | [] => .error (.nameError "i")
      | _ :: _ =>
        let notesLines := match findMarker body with
          | some j => body.take j
          | none => body
        let restLines := match findMarker body with
          | some j => body.drop (j + 1)
          | none => ([] : List (List Char))
        let changeLines := (cropLines restLines).filter (fun l => !l.isEmpty)
        match Version.mk' name (Int.ofNat day) mon (Int.ofNat year)
            (joinLines notesLines) with
        | .error e => .error e
        | .ok v =>
          match parseChanges changeLines with
          | .error e => .error e
          | .ok cs => .ok { v with changes := cs }

/-- `Version.to_string`: header line, blank line, the notes block
followed by a blank line when non-empty, the `### Changes` marker, a
blank line, then one line per change. -/
def Version.to_string (v : Version) : List Char :=
  let hdr := "## ".toList ++ v.name ++ " (".toList ++ intToChars v.day ++
    [' '] ++ v.month ++ [' '] ++ intToChars v.year ++ ")\n\n".toList
  let withNotes := if v.notes.isEmpty then hdr else hdr ++ v.notes ++ "\n\n".toList
  withNotes ++ "### Changes\n\n".toList ++
    (v.changes.map (fun c => c.to_string ++ ['\n'])).flatten

/-- The section-grouping loop of `Changelog.from_string`, after the
first line has been checked to be a level-two header: each further
level-two header starts a new section, other lines are appended to the
current one. -/
def groupGo : List (List Char) → List (List Char) → List (List (List Char)) →
    List (List (List Char))
  | [], cur, done => (cur.reverse :: done).reverse
  | l :: rest, cur, done =>
    if isLevelTwoHeader l then groupGo rest [l] (cur.reverse :: done)
    else groupGo rest (l :: cur) done

/-- Grouping of the changelog body into sections: the body must be empty
or start with a level-two header (`assert sections` fails on the first
line otherwise). -/
def groupSections : List (List Char) → Except PyError (List (List (List Char)))
  | [] => .ok []
  | l :: rest =>
    if isLevelTwoHeader l then .ok (groupGo rest [l] [])
    else .error (.formatError "Changelog body doesn't start with level two header.")

/-- The per-section version parsing loop of `Changelog.from_string`. -/
def parseVersions : List (List (List Char)) → Except PyError (List Version)
  | [] => .ok []
  | sec :: rest =>
    match Version.from_string (joinLines sec) with
    | .error e => .error e
    | .ok v =>
      match parseVersions rest with
      | .error e => .error e
      | .ok vs => .ok (v :: vs)

/-- `Changelog.from_string`: an input that crops to no lines yields an
empty changelog (with a printed warning); otherwise the first line must
be the `# changelog` top header, and the remaining lines are cropped,
grouped into sections and parsed as versions, kept in file order. -/
def Changelog.from_string (s : List Char) : Except PyError Changelog :=
  match crop_line_padding s with
  | [] => .ok ⟨[]⟩
  | l0 :: rest =>
    if matchTopHeader l0 then
      match groupSections (cropLines rest) with
      | .error e => .error e
      | .ok secs =>
        match parseVersions secs with
        | .error e => .error e
        | .ok vs => .ok ⟨vs⟩
    else .error (.formatError "Changelog missing top header.")

/-- `Changelog.to_string`: the fixed top header followed by the versions
in reverse of stored order, separated by blank lines. -/
def Changelog.to_string (cl : Changelog) : List Char :=
  "# Changelog\n\n\n".toList ++
    List.intercalate "\n\n".toList (cl.versions.reverse.map Version.to_string)

/-- Lines of a free-text block up to incidental whitespace: split into
lines, strip each, and ignore blank lines.  Two blocks with the same
`contentLines` differ only in whitespace and blank-line placement. -/
def contentLines (s : List Char) : List (List Char) :=
  ((splitlines s).map pyStrip).filter (fun l => !l.isEmpty)

/-- A structurally valid prerelease version (its name is accepted by the
`Version` constructor) used to exhibit the round-trip defect of the
version header regex. -/
def rc1Version : Version :=
  ⟨"v1.0.0-rc1".toList, true, 1, "Jan".toList, 2020, [], []⟩

/-- C1.  Round-trip is broken by the code for prerelease names: the
changelog `⟨[rc1Version]⟩` is structurally valid (the constructor accepts
its fields, first conjunct), its serialization parses back, but the
re-parsed version's name is `"v1.0.0-rc1 "` — the greedy `(?:-.+)?` group
of the header regex swallows the space separating the name from the date,
so the name is not preserved and the round-tripped `Changelog` is not
semantically equivalent to the original. -/
theorem c1_roundtrip_prerelease_name_defect :
    Version.mk' "v1.0.0-rc1".toList 1 "Jan".toList 2020 [] = .ok rc1Version ∧
    (Changelog.from_string (Changelog.to_string ⟨[rc1Version]⟩)).map
      (fun cl => cl.versions.map Version.name) = .ok ["v1.0.0-rc1 ".toList] := by
  exact ⟨rfl, rfl⟩

/-- C2.  Not every parse failure is a FormatError: a changelog whose
last version block consists of a bare header raises a NameError (the
notes loop of `Version.from_string` never runs, leaving the loop
variable `i` unbound when `lines[i+1:]` is evaluated), and
`Version.from_string` of an empty string raises an IndexError at
`lines[0]`. -/
theorem c2_non_format_errors :
    Changelog.from_string "# Changelog\n\n## v1.0.0 (1 Jan 2020)".toList =
      .error (.nameError "i") ∧
    Version.from_string "## v1.0.0 (1 Jan 2020)".toList = .error (.nameError "i") ∧
    Version.from_string [] = .error .indexError := by
  exact ⟨rfl, rfl, rfl⟩

/-- C3.  Only the genuinely empty string is tolerated: a whitespace-only
input crops to a non-empty list of empty lines (the loops of
`crop_line_padding` never fire when every line is blank, contradicting
its own docstring "Remove empty lines in start and end of list"), so
`Changelog.from_string " "` fails on the top-header assert instead of
returning an empty changelog, and `crop_line_padding "\n\n"` is a
two-element list of empty lines, not the empty sequence. -/
theorem c3_whitespace_only_input_fails :
    Changelog.from_string " ".toList = .error (.formatError "Changelog missing top header.") ∧
    crop_line_padding "\n\n".toList = [[], []] ∧
    Changelog.from_string [] = .ok ⟨[]⟩ := by
  exact ⟨rfl, rfl, rfl⟩

/-- The `Change` of the spec's worked example. -/
def bugfixChange : Change := ⟨"fixed login bug".toList, "Bugfix".toList, 17⟩

/-- C6.  Parsing `"* Bugfix: fixed login bug (!17)"` yields exactly
`Change(title="fixed login bug", kind="Bugfix", mr=17)`, serializing it
reproduces the input exactly, and in general `Change.to_string` appends
the `" (!<mr>)"` suffix iff `mr` is non-zero. -/
theorem c6_change_example :
    Change.from_string "* Bugfix: fixed login bug (!17)".toList = .ok bugfixChange ∧
    bugfixChange.to_string = "* Bugfix: fixed login bug (!17)".toList ∧
    ∀ c : Change, c.to_string =
      "* ".toList ++ c.kind ++ ": ".toList ++ c.title ++
        (if c.mr = 0 then [] else " (!".toList ++ intToChars c.mr ++ [')']) := by
  refine ⟨rfl, rfl, fun c => ?_⟩
  unfold Change.to_string
  split <;> simp

/-- C5 counterexample.  The `Change` constructor accepts a negative MR
number: `assert not mr or isinstance(mr, int)` only checks the type of a
truthy value, so `Change("x", mr=-5)` succeeds with `mr = -5 < 0`,
contradicting the claim that no construction produces a negative `mr`. -/
theorem c5_negative_mr_accepted :
    Change.mk' "x".toList "Changes".toList (-5) =
      .ok ⟨"x".toList, "Changes".toList, -5⟩ ∧ (-5 : Int) < 0 :=
  ⟨rfl, by decide⟩

/-- C5 (amended).  A `Change` obtained through `Change.from_string` always
has a non-negative `mr`: the MR group is a string of decimal digits (or
absent, giving 0); only the direct constructor can be handed a negative
integer, which it accepts. -/
theorem c5_from_string_mr_nonneg (s : List Char) (c : Change)
    (h : Change.from_string s = .ok c) : 0 ≤ c.mr := by
  simp only [Change.from_string, Change.mk'] at h
  iterate 9 (all_goals try split at h)
  all_goals simp_all
  all_goals subst h
  all_goals simp

/-- C5 witness: a concretely parsed change has non-negative `mr`. -/
theorem c5_mr_nonneg_witness :
    0 ≤ (Change.mk "a".toList "Changes".toList 0).mr :=
  c5_from_string_mr_nonneg "* Changes: a".toList ⟨"a".toList, "Changes".toList, 0⟩ rfl

/-- C9.  Whenever the cropped input is non-empty and its first line does
not match the case-insensitive `# changelog` top header,
`Changelog.from_string` fails with the FormatError "Changelog missing
top header.". -/
theorem c9_missing_top_header (s : List Char) (l0 : List Char)
    (rest : List (List Char)) (h1 : crop_line_padding s = l0 :: rest)
    (h2 : matchTopHeader l0 = false) :
    Changelog.from_string s = .error (.formatError "Changelog missing top header.") := by
  unfold Changelog.from_string
  rw [h1]
  simp [h2]

/-- C9 witness at a concrete non-header input. -/
theorem c9_missing_top_header_witness :
    Changelog.from_string "hello".toList =
      .error (.formatError "Changelog missing top header.") :=
  c9_missing_top_header "hello".toList "hello".toList [] rfl (by decide)

/-- A version name of the spec's grammar
`v<major>.<minor>.<patch>[-<suffix>]`, assembled from its components. -/
def buildName (d1 d2 d3 : List Char) (t : Option (List Char)) : List Char :=
  'v' :: (d1 ++ ('.' :: (d2 ++ ('.' :: (d3 ++
    (match t with | none => [] | some u => '-' :: u))))))

/-- One-step unfolding of `parseName` at a name starting with `v`. -/
theorem parseName_v (r0 : List Char) : parseName ('v' :: r0) =
    (if (r0.takeWhile Char.isDigit).isEmpty then none
     else match r0.dropWhile Char.isDigit with
       | c :: r2 =>
         if c = '.' then
           (if (r2.takeWhile Char.isDigit).isEmpty then none
            else match r2.dropWhile Char.isDigit with
              | c' :: r4 =>
                if c' = '.' then
                  (if (r4.takeWhile Char.isDigit).isEmpty then none
                   else nameTail (r4.dropWhile Char.isDigit))
                else none
              | [] => none)
         else none
       | [] => none) := rfl

theorem parseName_buildName (d1 d2 d3 : List Char) (t : Option (List Char))
    (h1 : d1 ≠ [] ∧ ∀ c ∈ d1, Char.isDigit c)
    (h2 : d2 ≠ [] ∧ ∀ c ∈ d2, Char.isDigit c)
    (h3 : d3 ≠ [] ∧ ∀ c ∈ d3, Char.isDigit c)
    (ht : ∀ u, t = some u → u ≠ [] ∧ ∀ c ∈ u, c ≠ '\n') :
    parseName (buildName d1 d2 d3 t) = some t.isSome := by
  obtain ⟨h1n, h1d⟩ := h1
  obtain ⟨h2n, h2d⟩ := h2
  obtain ⟨h3n, h3d⟩ := h3
  have hdot : ¬ Char.isDigit '.' = true := by decide
  have hdash : ¬ Char.isDigit '-' = true := by decide
  unfold buildName
  rw [parseName_v]
  rw [List.takeWhile_append_of_pos h1d, List.dropWhile_append_of_pos h1d,
    List.takeWhile_cons_of_neg hdot, List.dropWhile_cons_of_neg hdot]
  simp only [List.append_nil, List.isEmpty_eq_true, h1n, reduceCtorEq, ite_false,
    if_true, ite_true]
  rw [List.takeWhile_append_of_pos h2d, List.dropWhile_append_of_pos h2d,
    List.takeWhile_cons_of_neg hdot, List.dropWhile_cons_of_neg hdot]
  simp only [List.append_nil, h2n, reduceCtorEq, ite_false, if_true, ite_true, if_neg]
  cases t with
  | none =>
    simp only [List.append_nil]
    rw [List.takeWhile_eq_self_iff.mpr (fun c hc => h3d c hc)]
    rw [List.dropWhile_eq_nil_iff.mpr (fun c hc => h3d c hc)]
    simp only [h3n, ite_false, if_neg, Option.isSome_none]
    rfl
  | some u =>
    obtain ⟨hun, hud⟩ := ht u rfl
    rw [List.takeWhile_append_of_pos h3d, List.dropWhile_append_of_pos h3d,
      List.takeWhile_cons_of_neg hdash, List.dropWhile_cons_of_neg hdash]
    simp only [List.append_nil, h3n, reduceCtorEq, ite_false, if_true, ite_true]
    unfold nameTail
    have hlast : ¬ u.getLast? = some '\n' := by
      intro hl
      exact hud '\n' (List.mem_of_getLast?_eq_some hl) rfl
    have hcond : ¬ ('-' = '\n' ∧ u = []) := by simp
    simp only [hcond, ite_false, if_neg, hlast]
    have hok : (u ≠ [] ∧ u.all (fun c => decide (c ≠ '\n')) = true) := by
      refine ⟨hun, ?_⟩
      simp only [List.all_eq_true, decide_eq_true_eq]
      exact fun c hc => hud c hc
    simp [hok]
    exact fun h => hud '\n' h rfl

/-- C7.  For every name of the grammar
`v<major>.<minor>.<patch>[-<suffix>]` (non-empty digit groups, non-empty
newline-free suffix), whenever the `Version` constructor succeeds the
derived `prerelease` flag is true iff the `-suffix` is present. -/
theorem c7_prerelease_iff_suffix (d1 d2 d3 : List Char) (t : Option (List Char))
    (day : Int) (mon : List Char) (yr : Int) (nts : List Char) (v : Version)
    (h1 : d1 ≠ [] ∧ ∀ c ∈ d1, Char.isDigit c)
    (h2 : d2 ≠ [] ∧ ∀ c ∈ d2, Char.isDigit c)
    (h3 : d3 ≠ [] ∧ ∀ c ∈ d3, Char.isDigit c)
    (ht : ∀ u, t = some u → u ≠ [] ∧ ∀ c ∈ u, c ≠ '\n')
    (hv : Version.mk' (buildName d1 d2 d3 t) day mon yr nts = .ok v) :
    v.prerelease = t.isSome := by
  have hp := parseName_buildName d1 d2 d3 t h1 h2 h3 ht
  simp only [Version.mk'] at hv
  rw [hp] at hv
  iterate 6 (all_goals try split at hv)
  all_goals simp_all
  subst hv
  rfl

/-- C7 witness at the concrete grammatical name `v1.0.0-rc1`. -/
theorem c7_prerelease_witness :
    (Version.mk "v1.0.0-rc1".toList true 1 "Jan".toList 2020 [] []).prerelease =
      (some "rc1".toList).isSome :=
  c7_prerelease_iff_suffix ['1'] ['0'] ['0'] (some "rc1".toList) 1 "Jan".toList
    2020 [] (Version.mk "v1.0.0-rc1".toList true 1 "Jan".toList 2020 [] [])
    ⟨by decide, by decide⟩ ⟨by decide, by decide⟩ ⟨by decide, by decide⟩
    (fun u h => by injection h with h; subst h; exact ⟨by decide, by decide⟩)
    rfl


/-- C8 counterexample.  The month argument `"jan"` is not one of the
twelve fixed abbreviations of `MONTHS`, yet `Version` construction
succeeds (the constructor capitalizes the argument before the membership
check), contradicting the claim that construction fails for every month
argument outside the twelve abbreviations. -/
theorem c8_lowercase_month_accepted :
    Version.mk' "v1.0.0".toList 1 "jan".toList 2020 [] =
      .ok ⟨"v1.0.0".toList, false, 1, "Jan".toList, 2020, [], []⟩ ∧
    ¬ ("jan".toList ∈ MONTHSL) :=
  ⟨rfl, by decide⟩

/-- C8 (amended).  For a name accepted by the name regex, `Version`
construction succeeds iff the day is in 1-31, the capitalization of the
month argument is one of the twelve fixed abbreviations (so the month
check is case-insensitive), and the year is in [2017, 2030); and every
construction failure is a FormatError (Python interpolates the offending
value into the message). -/
theorem c8_date_range_validation (name : List Char) (day : Int)
    (mon : List Char) (yr : Int) (nts : List Char) (b : Bool)
    (hname : parseName name = some b) :
    ((∃ v, Version.mk' name day mon yr nts = .ok v) ↔
      (0 < day ∧ day < 32 ∧ pyCapitalize mon ∈ MONTHSL ∧ 2017 ≤ yr ∧ yr < 2030)) ∧
    (∀ e, Version.mk' name day mon yr nts = .error e → ∃ msg, e = .formatError msg) := by
  simp only [Version.mk']
  rw [hname]
  dsimp only
  constructor
  · constructor
    · intro ⟨v, hv⟩
      iterate 4 (all_goals try split at hv)
      all_goals simp_all
    · intro ⟨hd1, hd2, hm, hy1, hy2⟩
      rw [if_pos ⟨hd1, hd2⟩]
      have hm2 : MONTHSL.contains (pyCapitalize mon) = true := by
        simpa using hm
      rw [if_pos hm2, if_pos ⟨hy1, hy2⟩]
      exact ⟨_, rfl⟩
  · intro e he
    iterate 4 (all_goals try split at he)
    all_goals simp_all
    all_goals exact ⟨_, he.symm⟩

/-- C8 witness at a concrete in-range date. -/
theorem c8_date_range_witness :
    ((∃ v, Version.mk' "v1.0.0".toList 15 "Mar".toList 2020 [] = .ok v) ↔
      (0 < (15 : Int) ∧ (15 : Int) < 32 ∧ pyCapitalize "Mar".toList ∈ MONTHSL ∧
        2017 ≤ (2020 : Int) ∧ (2020 : Int) < 2030)) ∧
    (∀ e, Version.mk' "v1.0.0".toList 15 "Mar".toList 2020 [] = .error e →
      ∃ msg, e = .formatError msg) :=
  c8_date_range_validation "v1.0.0".toList 15 "Mar".toList 2020 [] false rfl

/-- Stripping is idempotent. -/
theorem pyStrip_idem (l : List Char) : pyStrip (pyStrip l) = pyStrip l := by
  unfold pyStrip
  have h1 : List.dropWhile pySpace ((List.dropWhile pySpace l).rdropWhile pySpace) =
      (List.dropWhile pySpace l).rdropWhile pySpace := by
    rw [List.dropWhile_eq_self_iff]
    intro hl
    have hpre : (List.dropWhile pySpace l).rdropWhile pySpace <+: List.dropWhile pySpace l :=
      List.rdropWhile_prefix _ _
    have hlen : 0 < (List.dropWhile pySpace l).length :=
      lt_of_lt_of_le hl hpre.length_le
    have hget := hpre.getElem (n := 0) hl
    rw [List.get_eq_getElem, hget]
    have h2 := List.dropWhile_get_zero_not pySpace l hlen
    rwa [List.get_eq_getElem] at h2
  rw [h1, List.rdropWhile_idempotent]

/-- The cropped list is a sublist of the stripped input. -/
theorem cropLines_sublist (ls : List (List Char)) :
    List.Sublist (cropLines ls) (ls.map pyStrip) := by
  unfold cropLines
  have h1 : List.Sublist (dropLeadingBlank (ls.map pyStrip)) (ls.map pyStrip) := by
    unfold dropLeadingBlank
    split
    · exact (List.dropWhile_suffix _).sublist
    · exact List.Sublist.refl _
  have h2 : List.Sublist (dropTrailingBlank (dropLeadingBlank (ls.map pyStrip)))
      (dropLeadingBlank (ls.map pyStrip)) := by
    unfold dropTrailingBlank
    split
    · exact (List.rdropWhile_prefix _ _).sublist
    · exact List.Sublist.refl _
  exact h2.trans h1

/-- Every line of a cropped list is already stripped. -/
theorem cropLines_mem_stripped (ls : List (List Char)) (x : List Char)
    (hx : x ∈ cropLines ls) : pyStrip x = x := by
  have hsub := (cropLines_sublist ls).subset hx
  obtain ⟨y, _, rfl⟩ := List.mem_map.mp hsub
  exact pyStrip_idem y

/-- Re-stripping a cropped list changes nothing. -/
theorem map_pyStrip_cropLines (ls : List (List Char)) :
    (cropLines ls).map pyStrip = cropLines ls :=
  List.map_congr_left (fun x hx => cropLines_mem_stripped ls x hx) |>.trans (List.map_id _)

theorem cropLines_idem (ls : List (List Char)) :
    cropLines (cropLines ls) = cropLines ls := by
  by_cases hA : (ls.map pyStrip).any (fun l => !l.isEmpty) = true
  · -- some line is non-blank
    have hL : dropLeadingBlank (ls.map pyStrip) =
        (ls.map pyStrip).dropWhile (fun l => l.isEmpty) := by
      unfold dropLeadingBlank
      rw [if_pos hA]
    set A1 := (ls.map pyStrip).dropWhile (fun l => l.isEmpty) with hA1
    have hA1ne : A1 ≠ [] := by
      intro h
      rw [List.dropWhile_eq_nil_iff] at h
      obtain ⟨x, hx, hxb⟩ := List.any_eq_true.mp hA
      exact absurd (h x hx) (by simpa using hxb)
    have hA1head : ¬ (A1.head hA1ne).isEmpty = true := by
      have := List.head_dropWhile_not (fun (l : List Char) => l.isEmpty) (ls.map pyStrip)
        (by rw [← hA1]; exact hA1ne)
      simp only at this
      simp [hA1, this]
    have hA1any : A1.any (fun l => !l.isEmpty) = true := by
      refine List.any_eq_true.mpr ⟨A1.head hA1ne, List.head_mem _, by simpa using hA1head⟩
    have hT : dropTrailingBlank A1 = A1.rdropWhile (fun l => l.isEmpty) := by
      unfold dropTrailingBlank
      rw [if_pos hA1any]
    set A2 := A1.rdropWhile (fun l => l.isEmpty) with hA2
    have hcrop : cropLines ls = A2 := by
      unfold cropLines
      rw [hL, hT]
    have hA2pre : A2 <+: A1 := List.rdropWhile_prefix _ _
    have hA2ne : A2 ≠ [] := by
      intro h
      rw [List.rdropWhile_eq_nil_iff] at h
      exact absurd (h _ (List.head_mem hA1ne)) hA1head
    have hA2head : ¬ (A2.head hA2ne).isEmpty = true := by
      rw [hA2pre.head hA2ne]
      exact hA1head
    have hA2last : ¬ (A2.getLast hA2ne).isEmpty = true :=
      List.rdropWhile_last_not _ _ hA2ne
    have hA2any : A2.any (fun l => !l.isEmpty) = true :=
      List.any_eq_true.mpr ⟨A2.head hA2ne, List.head_mem _, by simpa using hA2head⟩
    rw [hcrop]
    unfold cropLines
    have hmap : A2.map pyStrip = A2 := by
      rw [← hcrop]
      exact map_pyStrip_cropLines ls
    rw [hmap]
    have hL2 : dropLeadingBlank A2 = A2 := by
      unfold dropLeadingBlank
      rw [if_pos hA2any]
      rw [List.dropWhile_eq_self_iff]
      intro hl
      have : A2.get ⟨0, hl⟩ = A2.head hA2ne := by
        rw [List.get_eq_getElem, List.head_eq_getElem]
      rw [this]
      exact hA2head
    rw [hL2]
    unfold dropTrailingBlank
    rw [if_pos hA2any]
    exact List.rdropWhile_eq_self_iff.mpr (fun _ => hA2last)
  · -- every line is blank: both loops leave the list unchanged
    have hcrop : cropLines ls = ls.map pyStrip := by
      unfold cropLines dropLeadingBlank dropTrailingBlank
      rw [if_neg hA, if_neg hA]
    rw [hcrop]
    unfold cropLines
    have hmap : (ls.map pyStrip).map pyStrip = ls.map pyStrip := by
      rw [List.map_map]
      exact List.map_congr_left (fun x _ => pyStrip_idem x)
    rw [hmap]
    unfold dropLeadingBlank dropTrailingBlank
    rw [if_neg hA, if_neg hA]

/-- C10.  `crop_line_padding` is idempotent — applying it (in its
list form `cropLines`) to its own output, whether that output came from
a list or from a string, returns the output unchanged — and every line
of its output is free of leading and trailing whitespace. -/
theorem c10_crop_line_padding_idempotent :
    (∀ ls : List (List Char), cropLines (cropLines ls) = cropLines ls ∧
      (cropLines ls).all (fun l => pyStrip l == l) = true) ∧
    (∀ s : List Char, cropLines (crop_line_padding s) = crop_line_padding s) := by
  refine ⟨fun ls => ⟨cropLines_idem ls, ?_⟩, fun s => cropLines_idem (splitlines s)⟩
  rw [List.all_eq_true]
  intro x hx
  simpa using cropLines_mem_stripped ls x hx

/-- Characters that do not break a line. -/
def noBreak (c : Char) : Bool := !(c = '\n' || c = '\r')

theorem splitlinesAux_nl (Y : List Char) (acc : List Char) :
    splitlinesAux ('\n' :: Y) acc = acc.reverse :: splitlinesAux Y [] := rfl

theorem splitlinesAux_crnl (Y : List Char) (acc : List Char) :
    splitlinesAux ('\r' :: '\n' :: Y) acc = acc.reverse :: splitlinesAux Y [] := rfl

theorem splitlinesAux_cr_nil (acc : List Char) :
    splitlinesAux ['\r'] acc = [acc.reverse] := rfl

theorem splitlinesAux_cr_other (d : Char) (rest acc : List Char) (hd : d ≠ '\n') :
    splitlinesAux ('\r' :: d :: rest) acc =
      acc.reverse :: splitlinesAux (d :: rest) [] := by
  rw [splitlinesAux.eq_def]
  split
  · simp_all
  · rename_i heq
    injection heq with hc hr
    injection hr with hd2 hr2
    exact absurd hd2 hd
  · rename_i hcond heq
    injection heq with hc hr
    subst hr
    rw [← hc]
    simp

theorem splitlinesAux_other (c : Char) (rest acc : List Char)
    (h1 : c ≠ '\n') (h2 : c ≠ '\r') :
    splitlinesAux (c :: rest) acc = splitlinesAux rest (c :: acc) := by
  rw [splitlinesAux.eq_def]
  split
  · simp_all
  · rename_i heq
    injection heq with hc hr
    exact absurd hc h2
  · rename_i hcond heq
    injection heq with hc hr
    subst hr
    rw [← hc]
    simp [h1, h2]

theorem splitlinesAux_append_nl (n : Nat) : ∀ (S Y acc : List Char), S.length ≤ n →
    splitlinesAux (S ++ '\n' :: Y) acc =
      splitlinesAux (S ++ ['\n']) acc ++ splitlinesAux Y [] := by
  induction n with
  | zero =>
    intro S Y acc hS
    have hS0 : S = [] := List.eq_nil_of_length_eq_zero (Nat.le_zero.mp hS)
    subst hS0
    simp only [List.nil_append, splitlinesAux_nl]
    rfl
  | succ n ih =>
    intro S Y acc hS
    cases S with
    | nil =>
      simp only [List.nil_append, splitlinesAux_nl]
      rfl
    | cons c S' =>
      by_cases hc1 : c = '\n'
      · subst hc1
        rw [List.cons_append, splitlinesAux_nl, List.cons_append, splitlinesAux_nl,
          ih S' Y [] (by simpa using Nat.le_of_succ_le_succ hS), List.cons_append]
      · by_cases hc2 : c = '\r'
        · subst hc2
          cases S' with
          | nil =>
            rw [List.singleton_append, splitlinesAux_crnl]
            rfl
          | cons d S'' =>
            by_cases hd : d = '\n'
            · subst hd
              rw [List.cons_append, List.cons_append, splitlinesAux_crnl,
                List.cons_append, List.cons_append, splitlinesAux_crnl,
                ih S'' Y [] (by simp at hS; omega), List.cons_append]
            · rw [List.cons_append, List.cons_append, splitlinesAux_cr_other d _ acc hd,
                List.cons_append, List.cons_append, splitlinesAux_cr_other d _ acc hd]
              rw [show d :: (S'' ++ '\n' :: Y) = (d :: S'') ++ '\n' :: Y from rfl,
                show d :: (S'' ++ ['\n']) = (d :: S'') ++ ['\n'] from rfl,
                ih (d :: S'') Y [] (by simp at hS; simp; omega), List.cons_append]
              rfl
        · rw [List.cons_append, splitlinesAux_other c _ acc hc1 hc2,
            List.cons_append, splitlinesAux_other c _ acc hc1 hc2,
            ih S' Y (c :: acc) (by simpa using Nat.le_of_succ_le_succ hS)]

theorem splitlinesAux_noBreak (X : List Char) : ∀ acc : List Char,
    X.all noBreak = true →
    splitlinesAux X acc =
      (if (acc.reverse ++ X).isEmpty then [] else [acc.reverse ++ X]) := by
  induction X with
  | nil =>
    intro acc _
    simp [splitlinesAux]
  | cons c X' ih =>
    intro acc hX
    simp only [List.all_cons, Bool.and_eq_true] at hX
    obtain ⟨hc, hX'⟩ := hX
    simp only [noBreak, Bool.not_eq_true', Bool.or_eq_false_iff, decide_eq_false_iff_not] at hc
    rw [splitlinesAux_other c X' acc hc.1 hc.2, ih (c :: acc) hX']
    simp

theorem splitlinesAux_noBreak_nl (X : List Char) : ∀ acc : List Char,
    X.all noBreak = true →
    splitlinesAux (X ++ ['\n']) acc = [acc.reverse ++ X] := by
  induction X with
  | nil =>
    intro acc _
    simp [splitlinesAux]
  | cons c X' ih =>
    intro acc hX
    simp only [List.all_cons, Bool.and_eq_true] at hX
    obtain ⟨hc, hX'⟩ := hX
    simp only [noBreak, Bool.not_eq_true', Bool.or_eq_false_iff, decide_eq_false_iff_not] at hc
    rw [List.cons_append, splitlinesAux_other c _ acc hc.1 hc.2, ih (c :: acc) hX']
    simp

theorem splitlines_append_nl_noBreak (X Y : List Char) (hX : X.all noBreak = true) :
    splitlines (X ++ '\n' :: Y) = X :: splitlines Y := by
  unfold splitlines
  rw [splitlinesAux_append_nl X.length X Y [] le_rfl, splitlinesAux_noBreak_nl X [] hX]
  simp

theorem splitlines_nl_cons (Y : List Char) :
    splitlines ('\n' :: Y) = [] :: splitlines Y := rfl

theorem splitlines_noBreak (X : List Char) (hX : X.all noBreak = true) :
    splitlines X = if X.isEmpty then [] else [X] := by
  unfold splitlines
  rw [splitlinesAux_noBreak X [] hX]
  simp

theorem splitlinesAux_members_noBreak (n : Nat) : ∀ (s acc : List Char),
    s.length ≤ n → acc.all noBreak = true →
    ∀ l ∈ splitlinesAux s acc, l.all noBreak = true := by
  induction n with
  | zero =>
    intro s acc hs hacc l hl
    have hs0 : s = [] := List.eq_nil_of_length_eq_zero (Nat.le_zero.mp hs)
    subst hs0
    simp only [splitlinesAux] at hl
    split at hl
    · simp at hl
    · simp only [List.mem_singleton] at hl
      subst hl
      simpa using hacc
  | succ n ih =>
    intro s acc hs hacc l hl
    cases s with
    | nil =>
      simp only [splitlinesAux] at hl
      split at hl
      · simp at hl
      · simp only [List.mem_singleton] at hl
        subst hl
        simpa using hacc
    | cons c s' =>
      by_cases hc1 : c = '\n'
      · subst hc1
        rw [splitlinesAux_nl] at hl
        rcases List.mem_cons.mp hl with h | h
        · subst h; simpa using hacc
        · exact ih s' [] (by simpa using Nat.le_of_succ_le_succ hs) rfl l h
      · by_cases hc2 : c = '\r'
        · subst hc2
          cases s' with
          | nil =>
            rw [splitlinesAux_cr_nil] at hl
            simp only [List.mem_singleton] at hl
            subst hl
            simpa using hacc
          | cons d s'' =>
            by_cases hd : d = '\n'
            · subst hd
              rw [splitlinesAux_crnl] at hl
              rcases List.mem_cons.mp hl with h | h
              · subst h; simpa using hacc
              · exact ih s'' [] (by simp at hs; omega) rfl l h
            · rw [splitlinesAux_cr_other d s'' acc hd] at hl
              rcases List.mem_cons.mp hl with h | h
              · subst h; simpa using hacc
              · exact ih (d :: s'') [] (by simp at hs; simp; omega) rfl l h
        · rw [splitlinesAux_other c s' acc hc1 hc2] at hl
          refine ih s' (c :: acc) (by simpa using Nat.le_of_succ_le_succ hs) ?_ l hl
          simp only [List.all_cons, Bool.and_eq_true]
          exact ⟨by simp [noBreak, hc1, hc2], hacc⟩

theorem splitlines_members_noBreak (s : List Char) (l : List Char)
    (hl : l ∈ splitlines s) : l.all noBreak = true :=
  splitlinesAux_members_noBreak s.length s [] le_rfl rfl l hl

/-- Stripping keeps any all-characters property. -/
theorem pyStrip_all (p : Char → Bool) (l : List Char) (h : l.all p = true) :
    (pyStrip l).all p = true := by
  rw [List.all_eq_true] at h ⊢
  intro c hc
  unfold pyStrip at hc
  have h1 : c ∈ l.dropWhile pySpace :=
    (List.rdropWhile_prefix _ _).subset hc
  exact h c ((List.dropWhile_suffix _).subset h1)

theorem joinLines_cons_cons (a b : List Char) (r : List (List Char)) :
    joinLines (a :: b :: r) = a ++ '\n' :: joinLines (b :: r) := rfl

/-- Joining lines and re-splitting preserves the stripped non-blank
lines. -/
theorem filter_strip_splitlines_joinLines (P : List (List Char))
    (hP : ∀ l ∈ P, l.all noBreak = true) :
    ((splitlines (joinLines P)).map pyStrip).filter (fun l => !l.isEmpty) =
      (P.map pyStrip).filter (fun l => !l.isEmpty) := by
  induction P with
  | nil => rfl
  | cons l P' ih =>
    cases P' with
    | nil =>
      show ((splitlines (joinLines [l])).map pyStrip).filter (fun l => !l.isEmpty) = _
      have hl := hP l (by simp)
      rw [show joinLines [l] = l from rfl, splitlines_noBreak l hl]
      cases l with
      | nil => rfl
      | cons c l' => simp
    | cons b r =>
      rw [joinLines_cons_cons,
        splitlines_append_nl_noBreak l (joinLines (b :: r)) (hP l (by simp))]
      have ih2 := ih (fun x hx => hP x (List.mem_cons_of_mem l hx))
      simp only [List.map_cons, List.filter_cons]
      rw [ih2]
      simp [List.filter_cons]

theorem filter_strip_aux_trailing_nl (n : Nat) : ∀ (s acc : List Char),
    s.length ≤ n →
    ((splitlinesAux (s ++ ['\n']) acc).map pyStrip).filter (fun l => !l.isEmpty) =
      ((splitlinesAux s acc).map pyStrip).filter (fun l => !l.isEmpty) := by
  induction n with
  | zero =>
    intro s acc hs
    have hs0 : s = [] := List.eq_nil_of_length_eq_zero (Nat.le_zero.mp hs)
    subst hs0
    show ((splitlinesAux ['\n'] acc).map pyStrip).filter _ = _
    rw [splitlinesAux_nl]
    show ((acc.reverse :: []).map pyStrip).filter _ = _
    simp only [splitlinesAux]
    cases acc with
    | nil => rfl
    | cons a acc' => simp
  | succ n ih =>
    intro s acc hs
    cases s with
    | nil =>
      show ((splitlinesAux ['\n'] acc).map pyStrip).filter _ = _
      rw [splitlinesAux_nl]
      show ((acc.reverse :: []).map pyStrip).filter _ = _
      simp only [splitlinesAux]
      cases acc with
      | nil => rfl
      | cons a acc' => simp
    | cons c s' =>
      by_cases hc1 : c = '\n'
      · subst hc1
        rw [List.cons_append, splitlinesAux_nl, splitlinesAux_nl]
        simp only [List.map_cons, List.filter_cons]
        rw [ih s' [] (by simpa using Nat.le_of_succ_le_succ hs)]
      · by_cases hc2 : c = '\r'
        · subst hc2
          cases s' with
          | nil =>
            show ((splitlinesAux ['\r', '\n'] acc).map pyStrip).filter _ = _
            rw [splitlinesAux_crnl, splitlinesAux_cr_nil]
            rfl
          | cons d s'' =>
            by_cases hd : d = '\n'
            · subst hd
              rw [List.cons_append, List.cons_append, splitlinesAux_crnl,
                splitlinesAux_crnl]
              simp only [List.map_cons, List.filter_cons]
              rw [ih s'' [] (by simp at hs; omega)]
            · rw [List.cons_append, List.cons_append,
                splitlinesAux_cr_other d _ acc hd, splitlinesAux_cr_other d s'' acc hd]
              simp only [List.map_cons, List.filter_cons]
              rw [show d :: (s'' ++ ['\n']) = (d :: s'') ++ ['\n'] from rfl,
                ih (d :: s'') [] (by simp at hs; simp; omega)]
        · rw [List.cons_append, splitlinesAux_other c _ acc hc1 hc2,
            splitlinesAux_other c s' acc hc1 hc2,
            ih s' (c :: acc) (by simpa using Nat.le_of_succ_le_succ hs)]

/-- Mirror of `dropWhile_append` for dropping from the right. -/
theorem rdropWhile_append {α : Type} (p : α → Bool) (A B : List α) :
    (A ++ B).rdropWhile p =
      if (B.rdropWhile p).isEmpty then A.rdropWhile p else A ++ B.rdropWhile p := by
  unfold List.rdropWhile
  rw [List.reverse_append, List.dropWhile_append]
  split
  · rename_i h
    rw [if_pos]
    rwa [List.isEmpty_eq_true, List.reverse_eq_nil_iff, ← List.isEmpty_eq_true]
  · rename_i h
    rw [if_neg, List.reverse_append, List.reverse_reverse]
    intro hc
    rw [List.isEmpty_eq_true, List.reverse_eq_nil_iff, ← List.isEmpty_eq_true] at hc
    exact absurd hc h

theorem mem_dropWhile_of_neg {α : Type} (p : α → Bool) (l : List α) (x : α)
    (hx : x ∈ l) (hpx : p x = false) : x ∈ l.dropWhile p := by
  induction l with
  | nil => simp at hx
  | cons c r ih =>
    rw [List.dropWhile_cons]
    split
    · rename_i hc
      rcases List.mem_cons.mp hx with h | h
      · subst h
        rw [hpx] at hc
        simp at hc
      · exact ih h
    · exact hx

theorem mem_rdropWhile_of_neg {α : Type} (p : α → Bool) (l : List α) (x : α)
    (hx : x ∈ l) (hpx : p x = false) : x ∈ l.rdropWhile p := by
  unfold List.rdropWhile
  rw [List.mem_reverse]
  exact mem_dropWhile_of_neg p l.reverse x (List.mem_reverse.mpr hx) hpx

/-- A non-blank stripped line survives cropping. -/
theorem mem_cropLines_of_mem (ls : List (List Char)) (x : List Char)
    (hx : x ∈ ls) (hstrip : pyStrip x = x) (hne : x.isEmpty = false) :
    x ∈ cropLines ls := by
  have h1 : x ∈ ls.map pyStrip := by
    rw [← hstrip]
    exact List.mem_map_of_mem pyStrip hx
  have h2 : x ∈ dropLeadingBlank (ls.map pyStrip) := by
    unfold dropLeadingBlank
    split
    · exact mem_dropWhile_of_neg _ _ x h1 hne
    · exact h1
  unfold cropLines dropTrailingBlank
  split
  · exact mem_rdropWhile_of_neg _ _ x h2 hne
  · exact h2

/-- Parsing the change lines fails whenever the literal `### Changes`
line is among them. -/
theorem parseChanges_of_marker_mem (L : List (List Char))
    (hM : "### Changes".toList ∈ L) :
    ∀ cs : List Change, parseChanges L ≠ .ok cs := by
  induction L with
  | nil => simp at hM
  | cons l L' ih =>
    intro cs h
    rcases List.mem_cons.mp hM with hl | hl
    · subst hl
      unfold parseChanges at h
      rw [show Change.from_string "### Changes".toList =
        .error (.formatError "Couldn't parse change information from string.") from rfl] at h
      exact absurd h (by simp)
    · unfold parseChanges at h
      rcases hc : Change.from_string l with e | c
      · rw [hc] at h
        simp at h
      · rw [hc] at h
        rcases hcs : parseChanges L' with e | cs'
        · rw [hcs] at h
          simp at h
        · exact ih hl cs' hcs

theorem natDigitsGo_all_noBreak (fuel : Nat) : ∀ (n : Nat) (acc : List Char),
    acc.all noBreak = true → (natDigitsGo fuel n acc).all noBreak = true := by
  have hdig : ∀ k, k < 10 → noBreak (Char.ofNat (48 + k)) = true := by decide
  induction fuel with
  | zero => intro n acc hacc; exact hacc
  | succ fuel ih =>
    intro n acc hacc
    unfold natDigitsGo
    split
    · rename_i h
      simp only [List.all_cons, Bool.and_eq_true]
      exact ⟨hdig n h, hacc⟩
    · rename_i h
      refine ih (n / 10) _ ?_
      simp only [List.all_cons, Bool.and_eq_true]
      exact ⟨hdig (n % 10) (Nat.mod_lt n (by omega)), hacc⟩

theorem intToChars_all_noBreak (i : Int) : (intToChars i).all noBreak = true := by
  unfold intToChars natDigits
  split
  · simp only [List.all_cons, Bool.and_eq_true]
    exact ⟨by decide, natDigitsGo_all_noBreak _ _ _ rfl⟩
  · exact natDigitsGo_all_noBreak _ _ _ rfl

/-- Splitting distributes over an explicit line break. -/
theorem splitlines_append_nl (S Y : List Char) :
    splitlines (S ++ '\n' :: Y) = splitlines (S ++ ['\n']) ++ splitlines Y := by
  unfold splitlines
  exact splitlinesAux_append_nl S.length S Y [] le_rfl

/-- Dropping blanks from the right stops at a non-blank element. -/
theorem rdropWhile_append_marker {α : Type} (p : α → Bool) (X : List α) (m : α)
    (hm : p m = false) (B : List α) :
    (X ++ [m] ++ B).rdropWhile p = X ++ [m] ++ B.rdropWhile p := by
  rw [rdropWhile_append p (X ++ [m]) B]
  split
  · rename_i h
    rw [List.isEmpty_eq_true] at h
    rw [h, List.append_nil, List.rdropWhile_concat_neg]
    rw [hm]
    simp
  · rfl

theorem pyStrip_hash_head (rest : List Char) :
    (pyStrip ('#' :: rest)).isEmpty = false := by
  unfold pyStrip
  rw [List.dropWhile_cons_of_neg (by decide)]
  rw [List.isEmpty_eq_false, Ne, List.rdropWhile_eq_nil_iff]
  intro h
  have := h '#' (by simp)
  simp [pySpace] at this

/-- The first line of a version's serialization, before stripping. -/
def headerLine (v : Version) : List Char :=
  "## ".toList ++ v.name ++ " (".toList ++ intToChars v.day ++ [' '] ++
    v.month ++ [' '] ++ intToChars v.year ++ [')']

/-- The change lines of a version's serialization. -/
def changesBlock (v : Version) : List Char :=
  (v.changes.map (fun c => c.to_string ++ ['\n'])).flatten

theorem headerLine_all_noBreak (v : Version) (hname : v.name.all noBreak = true)
    (hmon : v.month.all noBreak = true) : (headerLine v).all noBreak = true := by
  unfold headerLine
  simp only [List.all_append, Bool.and_eq_true]
  refine ⟨⟨⟨⟨⟨⟨⟨⟨by decide, hname⟩, by decide⟩, intToChars_all_noBreak _⟩, by decide⟩,
    hmon⟩, by decide⟩, intToChars_all_noBreak _⟩, by decide⟩

theorem to_string_normal (v : Version) : Version.to_string v =
    headerLine v ++ '\n' :: '\n' ::
      ((if v.notes.isEmpty then [] else v.notes ++ '\n' :: '\n' :: ([] : List Char)) ++
       ("### Changes".toList ++ '\n' :: '\n' :: changesBlock v)) := by
  have h1 : (")\n\n" : String).toList = [')', '\n', '\n'] := rfl
  have h2 : ("\n\n" : String).toList = ['\n', '\n'] := rfl
  have h3 : ("### Changes\n\n" : String).toList =
    "### Changes".toList ++ ['\n', '\n'] := rfl
  unfold Version.to_string headerLine changesBlock
  cases hn : v.notes.isEmpty
  · simp [hn, h1, h2, h3, List.append_assoc]
  · simp [hn, h1, h2, h3, List.append_assoc]

theorem pyStrip_marker : pyStrip "### Changes".toList = "### Changes".toList := rfl

theorem marker_isEmpty : ("### Changes".toList).isEmpty = false := rfl

/-- Cropping a list that starts with a non-blank (once stripped) header
line and contains the `### Changes` marker: the head survives, every
line is stripped, and only the trailing blanks after the marker are
dropped. -/
theorem cropLines_shape (h0 : List Char) (P B : List (List Char))
    (hh : (pyStrip h0).isEmpty = false) :
    cropLines (h0 :: (P ++ ["### Changes".toList] ++ B)) =
      pyStrip h0 :: ((P.map pyStrip ++ ["### Changes".toList]) ++
        (B.map pyStrip).rdropWhile (fun l => l.isEmpty)) := by
  unfold cropLines
  have hmark : List.map pyStrip ["### Changes".toList] = ["### Changes".toList] := by
    rw [List.map_cons, pyStrip_marker]
    rfl
  have hmape : (h0 :: (P ++ ["### Changes".toList] ++ B)).map pyStrip =
      pyStrip h0 :: ((P.map pyStrip ++ ["### Changes".toList]) ++ B.map pyStrip) := by
    rw [List.map_cons, List.map_append, List.map_append, hmark]
  rw [hmape]
  have hany : (pyStrip h0 :: ((P.map pyStrip ++ ["### Changes".toList]) ++
      B.map pyStrip)).any (fun l => !l.isEmpty) = true :=
    List.any_eq_true.mpr ⟨"### Changes".toList, by simp, by decide⟩
  rw [dropLeadingBlank, if_pos hany,
    List.dropWhile_cons_of_neg (by rw [hh]; simp)]
  rw [dropTrailingBlank, if_pos hany]
  rw [show pyStrip h0 :: ((P.map pyStrip ++ ["### Changes".toList]) ++ B.map pyStrip) =
    (pyStrip h0 :: P.map pyStrip) ++ ["### Changes".toList] ++ B.map pyStrip from rfl]
  rw [rdropWhile_append_marker _ _ _ marker_isEmpty]
  rfl

/-- Cropping the body of a version block: the leading blank lines and
the blanks directly before the marker region collapse, and a trailing
block whose last line is non-blank is untouched. -/
theorem cropLines_body (P B : List (List Char))
    (hP : ∀ l ∈ P, pyStrip l = l) (hB : ∀ l ∈ B, pyStrip l = l)
    (hBlast : ∀ h : B ≠ [], (B.getLast h).isEmpty = false) :
    cropLines (([] : List Char) :: (P ++ ["### Changes".toList] ++ B)) =
      (P.dropWhile (fun l => l.isEmpty) ++ ["### Changes".toList]) ++ B := by
  unfold cropLines
  have hmape : (([] : List Char) :: (P ++ ["### Changes".toList] ++ B)).map pyStrip =
      ([] : List Char) :: ((P ++ ["### Changes".toList]) ++ B) := by
    rw [List.map_cons, List.map_append, List.map_append,
      List.map_congr_left (fun x hx => hP x hx),
      List.map_congr_left (fun x hx => hB x hx),
      show List.map pyStrip ["### Changes".toList] = ["### Changes".toList] from by
        rw [List.map_cons, pyStrip_marker]; rfl]
    simp only [List.map_id']
    rfl
  rw [hmape]
  have hany : ((([] : List Char)) :: ((P ++ ["### Changes".toList]) ++ B)).any
      (fun l => !l.isEmpty) = true :=
    List.any_eq_true.mpr ⟨"### Changes".toList, by simp, by decide⟩
  rw [dropLeadingBlank, if_pos hany, List.dropWhile_cons_of_pos (by simp)]
  rw [show (P ++ ["### Changes".toList]) ++ B = P ++ (["### Changes".toList] ++ B) from
    List.append_assoc _ _ _]
  rw [List.dropWhile_append]
  have hone : List.dropWhile (fun l => l.isEmpty) (["### Changes".toList] ++ B) =
      ["### Changes".toList] ++ B := by
    rw [List.singleton_append, List.dropWhile_cons_of_neg (by simp [marker_isEmpty])]
  have huniform : (if (List.dropWhile (fun l => l.isEmpty) P).isEmpty then
        List.dropWhile (fun l => l.isEmpty) (["### Changes".toList] ++ B)
      else List.dropWhile (fun l => l.isEmpty) P ++ (["### Changes".toList] ++ B)) =
      List.dropWhile (fun l => l.isEmpty) P ++ (["### Changes".toList] ++ B) := by
    split
    · rename_i h
      rw [List.isEmpty_eq_true] at h
      rw [h, hone, List.nil_append]
    · rfl
  rw [huniform]
  have hanyt : (List.dropWhile (fun l => l.isEmpty) P ++
      (["### Changes".toList] ++ B)).any (fun l => !l.isEmpty) = true :=
    List.any_eq_true.mpr ⟨"### Changes".toList, by simp, by decide⟩
  rw [dropTrailingBlank, if_pos hanyt]
  rw [show List.dropWhile (fun l => l.isEmpty) P ++ (["### Changes".toList] ++ B) =
    List.dropWhile (fun l => l.isEmpty) P ++ ["### Changes".toList] ++ B from
    (List.append_assoc _ _ _).symm]
  rw [rdropWhile_append_marker _ _ _ marker_isEmpty]
  have hBr : B.rdropWhile (fun l => l.isEmpty) = B := by
    cases hB0 : B with
    | nil => simp
    | cons b B' =>
      rw [← hB0, List.rdropWhile_eq_self_iff]
      intro hl
      rw [hBlast hl]
      simp
  rw [hBr]

theorem headerLine_strip_isEmpty (v : Version) :
    (pyStrip (headerLine v)).isEmpty = false := by
  have h : headerLine v = '#' :: ('#' :: (' ' :: (v.name ++ " (".toList ++
      intToChars v.day ++ [' '] ++ v.month ++ [' '] ++ intToChars v.year ++ [')']))) := by
    unfold headerLine
    simp [List.append_assoc]
  rw [h]
  exact pyStrip_hash_head _

theorem marker_all_noBreak : ("### Changes".toList).all noBreak = true := by decide

/-- Structure of the cropped serialization of a version whose name and
month contain no line break: the stripped header line, a blank line, the
stripped lines of the notes block followed by a blank line (when the
notes are non-empty), the marker, and the stripped change lines with
trailing blanks removed. -/
theorem crop_to_string (v : Version) (hname : v.name.all noBreak = true)
    (hmon : v.month.all noBreak = true) :
    crop_line_padding (Version.to_string v) =
      pyStrip (headerLine v) ::
        (((([] : List Char) :: (if v.notes.isEmpty then ([] : List (List Char))
            else (splitlines (v.notes ++ ['\n'])).map pyStrip ++ [([] : List Char)])) ++
          ["### Changes".toList] ++
         ((([] : List Char) :: (splitlines (changesBlock v)).map pyStrip).rdropWhile
            (fun l => l.isEmpty)))) := by
  unfold crop_line_padding
  rw [to_string_normal v,
    splitlines_append_nl_noBreak _ _ (headerLine_all_noBreak v hname hmon),
    splitlines_nl_cons]
  cases hn : v.notes.isEmpty with
  | true =>
    simp only [if_true, List.nil_append]
    rw [splitlines_append_nl_noBreak _ _ marker_all_noBreak, splitlines_nl_cons]
    rw [show headerLine v :: ([] : List Char) ::
        ("### Changes".toList :: ([] : List Char) :: splitlines (changesBlock v)) =
      headerLine v :: (([([] : List Char)]) ++ ["### Changes".toList] ++
        (([] : List Char) :: splitlines (changesBlock v))) from rfl]
    rw [cropLines_shape _ _ _ (headerLine_strip_isEmpty v)]
    rfl
  | false =>
    simp only [Bool.false_eq_true, if_false]
    rw [show (v.notes ++ ['\n', '\n']) ++
        ("### Changes".toList ++ '\n' :: '\n' :: changesBlock v) =
      v.notes ++ '\n' :: ('\n' ::
        ("### Changes".toList ++ '\n' :: '\n' :: changesBlock v)) from by
      rw [List.append_assoc]; rfl]
    rw [splitlines_append_nl, splitlines_nl_cons]
    rw [splitlines_append_nl_noBreak _ _ marker_all_noBreak, splitlines_nl_cons]
    rw [show headerLine v :: ([] : List Char) ::
        (splitlines (v.notes ++ ['\n']) ++ ([] : List Char) ::
          ("### Changes".toList :: ([] : List Char) :: splitlines (changesBlock v))) =
      headerLine v :: ((([] : List Char) :: (splitlines (v.notes ++ ['\n']) ++
        [([] : List Char)])) ++ ["### Changes".toList] ++
        (([] : List Char) :: splitlines (changesBlock v))) from by
      simp [List.append_assoc]]
    rw [cropLines_shape _ _ _ (headerLine_strip_isEmpty v)]
    simp [List.map_append, show pyStrip ([] : List Char) = [] from rfl]

theorem matchChangesMarker_marker : matchChangesMarker "### Changes".toList = true := rfl

theorem matchChangesMarker_nil : matchChangesMarker [] = false := rfl

theorem filter_nb_dropWhile (X : List (List Char)) :
    (X.dropWhile (fun l => l.isEmpty)).filter (fun l => !l.isEmpty) =
      X.filter (fun l => !l.isEmpty) := by
  induction X with
  | nil => rfl
  | cons c r ih =>
    rw [List.dropWhile_cons, List.filter_cons]
    split
    · rename_i hc
      rw [ih]
      simp [hc]
    · rename_i hc
      rw [List.filter_cons, if_pos (by simpa using hc)]

theorem Version.mk'_ok_notes (name : List Char) (day : Int) (mon : List Char)
    (yr : Int) (nts : List Char) (w : Version)
    (h : Version.mk' name day mon yr nts = .ok w) : w.notes = nts := by
  simp only [Version.mk'] at h
  iterate 4 (all_goals try split at h)
  all_goals simp_all
  subst h
  rfl

/-- Joining stripped break-free lines and taking the content lines gives
back the non-blank ones. -/
theorem contentLines_joinLines (P : List (List Char))
    (hbf : ∀ l ∈ P, l.all noBreak = true) (hst : ∀ l ∈ P, pyStrip l = l) :
    contentLines (joinLines P) = P.filter (fun l => !l.isEmpty) := by
  unfold contentLines
  rw [filter_strip_splitlines_joinLines P hbf,
    List.map_congr_left (fun x hx => hst x hx)]
  simp only [List.map_id']

theorem filter_strip_splitlines_trailing_nl (s : List Char) :
    ((splitlines (s ++ ['\n'])).map pyStrip).filter (fun l => !l.isEmpty) =
      ((splitlines s).map pyStrip).filter (fun l => !l.isEmpty) :=
  filter_strip_aux_trailing_nl s.length s [] le_rfl

/-- C4: notes preservation under round trip, for a `Version` whose name
and month contain no CR or LF characters.  Whenever re-parsing the
serialization succeeds, the parsed notes carry exactly the same stripped
non-blank content lines as the original notes (whitespace and blank-line
placement may differ, which the claim allows).  The no-line-break
hypothesis is necessary: `c4_cr_name_notes_changed` exhibits a
constructor-accepted version whose name embeds a carriage return and
whose notes gain a new content line on round trip. -/
theorem c4_notes_content_preserved (v v' : Version)
    (hname : v.name.all noBreak = true) (hmon : v.month.all noBreak = true)
    (h : Version.from_string (Version.to_string v) = .ok v') :
    contentLines v'.notes = contentLines v.notes := by
  have hQst : ∀ l ∈ (([] : List Char) ::
      (splitlines (changesBlock v)).map pyStrip).rdropWhile (fun l => l.isEmpty),
      pyStrip l = l := by
    intro l hl
    have h1 := (List.rdropWhile_prefix _ _).subset hl
    rcases List.mem_cons.mp h1 with h0 | h0
    · subst h0; rfl
    · obtain ⟨y, hy, rfl⟩ := List.mem_map.mp h0
      exact pyStrip_idem y
  have hQlast : ∀ hq : (([] : List Char) ::
      (splitlines (changesBlock v)).map pyStrip).rdropWhile (fun l => l.isEmpty) ≠ [],
      (((([] : List Char) :: (splitlines (changesBlock v)).map pyStrip).rdropWhile
        (fun l => l.isEmpty)).getLast hq).isEmpty = false := by
    intro hq
    have h2 := List.rdropWhile_last_not (fun (l : List Char) => l.isEmpty)
      (([] : List Char) :: (splitlines (changesBlock v)).map pyStrip) hq
    simpa using h2
  simp only [Version.from_string] at h
  rw [crop_to_string v hname hmon] at h
  cases hn : v.notes.isEmpty with
  | true =>
    simp only [hn, if_true] at h
    rcases hmv : matchVersionHeader (pyStrip (headerLine v)) with _ | ⟨name, day, mon, year⟩
    · rw [hmv] at h; simp at h
    · rw [hmv] at h
      have hb : cropLines ([[]] ++ ["### Changes".toList] ++
          List.rdropWhile (fun l => l.isEmpty)
            (([] : List Char) :: List.map pyStrip (splitlines (changesBlock v)))) =
          "### Changes".toList ::
          List.rdropWhile (fun l => l.isEmpty)
            (([] : List Char) :: List.map pyStrip (splitlines (changesBlock v))) :=
        cropLines_body [] _ (by intro l hl; simp at hl) hQst hQlast
      rw [hb] at h
      rw [show findMarker ("### Changes".toList ::
          List.rdropWhile (fun l => l.isEmpty)
            (([] : List Char) :: List.map pyStrip (splitlines (changesBlock v)))) =
          some 0 from rfl] at h
      simp only [List.take_zero, List.drop_succ_cons, List.drop_zero, joinLines] at h
      rcases hmk : Version.mk' name (Int.ofNat day) mon (Int.ofNat year) [] with e | w
      · rw [hmk] at h; simp at h
      · rw [hmk] at h
        rcases hpc : parseChanges (List.filter (fun l => !l.isEmpty)
            (cropLines (List.rdropWhile (fun l => l.isEmpty)
              (([] : List Char) :: List.map pyStrip (splitlines (changesBlock v)))))) with e | cs
        · rw [hpc] at h; simp at h
        · rw [hpc] at h
          simp only [Except.ok.injEq] at h
          subst h
          have hw := Version.mk'_ok_notes _ _ _ _ _ _ hmk
          show contentLines w.notes = contentLines v.notes
          rw [hw, List.isEmpty_eq_true.mp hn]
  | false =>
    simp only [hn, Bool.false_eq_true, if_false] at h
    rcases hmv : matchVersionHeader (pyStrip (headerLine v)) with _ | ⟨name, day, mon, year⟩
    · rw [hmv] at h; simp at h
    · rw [hmv] at h
      have hNst : ∀ l ∈ List.map pyStrip (splitlines (v.notes ++ ['\n'])) ++ [[]],
          pyStrip l = l := by
        intro l hl
        rcases List.mem_append.mp hl with h0 | h0
        · obtain ⟨y, hy, rfl⟩ := List.mem_map.mp h0
          exact pyStrip_idem y
        · simp at h0; subst h0; rfl
      rw [show ([] : List Char) :: (List.map pyStrip (splitlines (v.notes ++ ['\n'])) ++ [[]]) ++
          ["### Changes".toList] ++
          List.rdropWhile (fun l => l.isEmpty)
            (([] : List Char) :: List.map pyStrip (splitlines (changesBlock v))) =
          ([] : List Char) :: ((List.map pyStrip (splitlines (v.notes ++ ['\n'])) ++ [[]]) ++
          ["### Changes".toList] ++
          List.rdropWhile (fun l => l.isEmpty)
            (([] : List Char) :: List.map pyStrip (splitlines (changesBlock v)))) from rfl] at h
      rw [cropLines_body (List.map pyStrip (splitlines (v.notes ++ ['\n'])) ++ [[]]) _
        hNst hQst hQlast] at h
      rw [List.dropWhile_append] at h
      cases hN : (List.dropWhile (fun l => l.isEmpty)
          (List.map pyStrip (splitlines (v.notes ++ ['\n'])))).isEmpty with
      | true =>
        rw [hN, if_pos rfl] at h
        rw [show List.dropWhile (fun l => l.isEmpty) [([] : List Char)] = [] from rfl] at h
        rw [List.nil_append, List.singleton_append] at h
        rw [show findMarker ("### Changes".toList ::
            List.rdropWhile (fun l => l.isEmpty)
              (([] : List Char) :: List.map pyStrip (splitlines (changesBlock v)))) =
            some 0 from rfl] at h
        dsimp only at h
        simp only [List.take_zero, List.drop_succ_cons, List.drop_zero, joinLines] at h
        rcases hmk : Version.mk' name (Int.ofNat day) mon (Int.ofNat year) [] with e | w
        · rw [hmk] at h; simp at h
        · rw [hmk] at h
          rcases hpc : parseChanges (List.filter (fun l => !l.isEmpty)
              (cropLines (List.rdropWhile (fun l => l.isEmpty)
                (([] : List Char) :: List.map pyStrip (splitlines (changesBlock v)))))) with e | cs
          · rw [hpc] at h; simp at h
          · rw [hpc] at h
            simp only [Except.ok.injEq] at h
            subst h
            have hw := Version.mk'_ok_notes _ _ _ _ _ _ hmk
            show contentLines w.notes = contentLines v.notes
            rw [hw]
            have hcv : contentLines v.notes = [] := by
              unfold contentLines
              rw [← filter_strip_splitlines_trailing_nl, ← filter_nb_dropWhile,
                List.isEmpty_eq_true.mp hN]
              rfl
            rw [hcv]
            rfl
      | false =>
        rw [hN] at h
        rw [if_neg (by simp)] at h
        rcases hFm : (List.dropWhile (fun l => l.isEmpty)
            (List.map pyStrip (splitlines (v.notes ++ ['\n'])))).findIdx?
            matchChangesMarker with _ | j
        · have hfm : findMarker (List.dropWhile (fun l => l.isEmpty)
            (List.map pyStrip (splitlines (v.notes ++ ['\n']))) ++ [[]] ++
          ["### Changes".toList] ++ List.rdropWhile (fun l => l.isEmpty)
            (([] : List Char) :: List.map pyStrip (splitlines (changesBlock v)))) =
              some ((List.dropWhile (fun l => l.isEmpty)
            (List.map pyStrip (splitlines (v.notes ++ ['\n'])))).length + 1) := by
            unfold findMarker
            simp [List.findIdx?_append, hFm, matchChangesMarker_nil]
            exact ⟨0, by rw [if_pos (by decide)], by omega⟩
          rw [hfm] at h
          dsimp only at h
          have h1 : List.dropWhile (fun l => l.isEmpty)
            (List.map pyStrip (splitlines (v.notes ++ ['\n']))) ++ [[]] ++
          ["### Changes".toList] ++ List.rdropWhile (fun l => l.isEmpty)
            (([] : List Char) :: List.map pyStrip (splitlines (changesBlock v))) =
              ((List.dropWhile (fun l => l.isEmpty)
            (List.map pyStrip (splitlines (v.notes ++ ['\n'])))) ++ [[]]) ++
              (["### Changes".toList] ++ List.rdropWhile (fun l => l.isEmpty)
            (([] : List Char) :: List.map pyStrip (splitlines (changesBlock v)))) := by
            simp [List.append_assoc]
          have htake : List.take ((List.dropWhile (fun l => l.isEmpty)
            (List.map pyStrip (splitlines (v.notes ++ ['\n'])))).length + 1)
              (List.dropWhile (fun l => l.isEmpty)
            (List.map pyStrip (splitlines (v.notes ++ ['\n']))) ++ [[]] ++
          ["### Changes".toList] ++ List.rdropWhile (fun l => l.isEmpty)
            (([] : List Char) :: List.map pyStrip (splitlines (changesBlock v)))) =
              (List.dropWhile (fun l => l.isEmpty)
            (List.map pyStrip (splitlines (v.notes ++ ['\n'])))) ++ [[]] := by
            rw [h1]
            exact List.take_left' (by simp)
          have hdrop : List.drop ((List.dropWhile (fun l => l.isEmpty)
            (List.map pyStrip (splitlines (v.notes ++ ['\n'])))).length + 1 + 1)
              (List.dropWhile (fun l => l.isEmpty)
            (List.map pyStrip (splitlines (v.notes ++ ['\n']))) ++ [[]] ++
          ["### Changes".toList] ++ List.rdropWhile (fun l => l.isEmpty)
            (([] : List Char) :: List.map pyStrip (splitlines (changesBlock v)))) =
              List.rdropWhile (fun l => l.isEmpty)
            (([] : List Char) :: List.map pyStrip (splitlines (changesBlock v))) := by
            exact List.drop_left' (by simp)
          rw [htake, hdrop] at h
          split at h
          · rename_i heq
            simp at heq
          · rcases hmk : Version.mk' name (Int.ofNat day) mon (Int.ofNat year)
                (joinLines ((List.dropWhile (fun l => l.isEmpty)
            (List.map pyStrip (splitlines (v.notes ++ ['\n'])))) ++ [[]])) with e | w
            · rw [hmk] at h; simp at h
            · rw [hmk] at h
              rcases hpc : parseChanges (List.filter (fun l => !l.isEmpty)
                  (cropLines (List.rdropWhile (fun l => l.isEmpty)
            (([] : List Char) :: List.map pyStrip (splitlines (changesBlock v)))))) with e | cs
              · rw [hpc] at h; simp at h
              · rw [hpc] at h
                simp only [Except.ok.injEq] at h
                subst h
                have hw := Version.mk'_ok_notes _ _ _ _ _ _ hmk
                have hbf : ∀ l ∈ (List.dropWhile (fun l => l.isEmpty)
            (List.map pyStrip (splitlines (v.notes ++ ['\n'])))) ++ [[]], l.all noBreak = true := by
                  intro l hl
                  rcases List.mem_append.mp hl with h0 | h0
                  · have h2 : l ∈ List.map pyStrip (splitlines (v.notes ++ ['\n'])) :=
                      (List.dropWhile_suffix _).subset h0
                    obtain ⟨y, hy, rfl⟩ := List.mem_map.mp h2
                    exact pyStrip_all noBreak y (splitlines_members_noBreak _ y hy)
                  · simp at h0; subst h0; rfl
                have hst2 : ∀ l ∈ (List.dropWhile (fun l => l.isEmpty)
            (List.map pyStrip (splitlines (v.notes ++ ['\n'])))) ++ [[]], pyStrip l = l := by
                  intro l hl
                  rcases List.mem_append.mp hl with h0 | h0
                  · have h2 : l ∈ List.map pyStrip (splitlines (v.notes ++ ['\n'])) :=
                      (List.dropWhile_suffix _).subset h0
                    obtain ⟨y, hy, rfl⟩ := List.mem_map.mp h2
                    exact pyStrip_idem y
                  · simp at h0; subst h0; rfl
                show contentLines w.notes = contentLines v.notes
                rw [hw, contentLines_joinLines _ hbf hst2, List.filter_append]
                rw [show List.filter (fun l => !l.isEmpty) [([] : List Char)] = [] from rfl,
                  List.append_nil]
                rw [filter_nb_dropWhile, filter_strip_splitlines_trailing_nl]
                rfl
        · have hj : j < (List.dropWhile (fun l => l.isEmpty)
            (List.map pyStrip (splitlines (v.notes ++ ['\n'])))).length :=
            (List.findIdx?_eq_some_iff_findIdx_eq.mp hFm).1
          have hfm : findMarker (List.dropWhile (fun l => l.isEmpty)
            (List.map pyStrip (splitlines (v.notes ++ ['\n']))) ++ [[]] ++
          ["### Changes".toList] ++ List.rdropWhile (fun l => l.isEmpty)
            (([] : List Char) :: List.map pyStrip (splitlines (changesBlock v)))) = some j := by
            unfold findMarker
            simp [List.findIdx?_append, hFm]
          rw [hfm] at h
          dsimp only at h
          have hmem : "### Changes".toList ∈ List.drop (j + 1)
              (List.dropWhile (fun l => l.isEmpty)
            (List.map pyStrip (splitlines (v.notes ++ ['\n']))) ++ [[]] ++
          ["### Changes".toList] ++ List.rdropWhile (fun l => l.isEmpty)
            (([] : List Char) :: List.map pyStrip (splitlines (changesBlock v)))) := by
            rw [show List.dropWhile (fun l => l.isEmpty)
            (List.map pyStrip (splitlines (v.notes ++ ['\n']))) ++ [[]] ++
          ["### Changes".toList] ++ List.rdropWhile (fun l => l.isEmpty)
            (([] : List Char) :: List.map pyStrip (splitlines (changesBlock v))) =
                (List.dropWhile (fun l => l.isEmpty)
            (List.map pyStrip (splitlines (v.notes ++ ['\n'])))) ++
                ([[]] ++ (["### Changes".toList] ++ List.rdropWhile (fun l => l.isEmpty)
            (([] : List Char) :: List.map pyStrip (splitlines (changesBlock v))))) from by
              simp [List.append_assoc]]
            rw [List.drop_append_of_le_length (by omega)]
            simp
          have hmem2 : "### Changes".toList ∈ List.filter (fun l => !l.isEmpty)
              (cropLines (List.drop (j + 1)
                (List.dropWhile (fun l => l.isEmpty)
            (List.map pyStrip (splitlines (v.notes ++ ['\n']))) ++ [[]] ++
          ["### Changes".toList] ++ List.rdropWhile (fun l => l.isEmpty)
            (([] : List Char) :: List.map pyStrip (splitlines (changesBlock v)))))) :=
            List.mem_filter.mpr
              ⟨mem_cropLines_of_mem _ _ hmem pyStrip_marker marker_isEmpty, by decide⟩
          split at h
          · rename_i heq
            simp at heq
          · rcases hmk : Version.mk' name (Int.ofNat day) mon (Int.ofNat year)
                (joinLines (List.take j
                  (List.dropWhile (fun l => l.isEmpty)
            (List.map pyStrip (splitlines (v.notes ++ ['\n']))) ++ [[]] ++
          ["### Changes".toList] ++ List.rdropWhile (fun l => l.isEmpty)
            (([] : List Char) :: List.map pyStrip (splitlines (changesBlock v)))))) with e | w
            · rw [hmk] at h; simp at h
            · rw [hmk] at h
              rcases hpc : parseChanges (List.filter (fun l => !l.isEmpty)
                  (cropLines (List.drop (j + 1)
                    (List.dropWhile (fun l => l.isEmpty)
            (List.map pyStrip (splitlines (v.notes ++ ['\n']))) ++ [[]] ++
          ["### Changes".toList] ++ List.rdropWhile (fun l => l.isEmpty)
            (([] : List Char) :: List.map pyStrip (splitlines (changesBlock v))))))) with e | cs
              · rw [hpc] at h; simp at h
              · exact absurd hpc (parseChanges_of_marker_mem _ hmem2 cs)

/-- A structurally valid version (accepted by the `Version` constructor)
whose name smuggles a carriage return, a date, and a second line of text
past the name regex (`.` matches CR). -/
def crNotesVersion : Version :=
  { name := "v1.0.0-x (1 Jan 2020)\ry".toList, prerelease := true, day := 1,
    month := "Jan".toList, year := 2020, notes := "n".toList, changes := [] }

/-- C4 counterexample: the constructor accepts `crNotesVersion`, its
round trip succeeds, yet the re-parsed notes contain the new content
line `y (1 Jan 2020)` in front of the original `n`: the notes block is
not preserved even up to whitespace. -/
theorem c4_cr_name_notes_changed :
    Version.mk' crNotesVersion.name crNotesVersion.day crNotesVersion.month
        crNotesVersion.year crNotesVersion.notes = .ok crNotesVersion ∧
    (Version.from_string (Version.to_string crNotesVersion)).map
        (fun w => contentLines w.notes) =
      .ok ["y (1 Jan 2020)".toList, "n".toList] ∧
    contentLines crNotesVersion.notes = ["n".toList] :=
  ⟨rfl, rfl, rfl⟩

def c4WitnessV : Version :=
  { name := "v1.0.0".toList, prerelease := false, day := 1,
    month := "Jan".toList, year := 2020, notes := "hello".toList, changes := [] }

def c4WitnessParsed : Version :=
  { name := "v1.0.0".toList, prerelease := false, day := 1,
    month := "Jan".toList, year := 2020, notes := "hello\n".toList, changes := [] }

/-- Witness for `c4_notes_content_preserved` at a concrete version: the
round trip of `c4WitnessV` succeeds, and the theorem applies to give
content-line preservation of the notes. -/
theorem c4_notes_content_preserved_witness :
    Version.from_string (Version.to_string c4WitnessV) = .ok c4WitnessParsed ∧
    contentLines c4WitnessParsed.notes = contentLines c4WitnessV.notes :=
  ⟨rfl, c4_notes_content_preserved c4WitnessV c4WitnessParsed
    (by decide) (by decide) rfl⟩
